import Mathlib

/-!
Shallow embedding of the `actix-multipart-extract` streaming multipart decoder
(`src/actix-multipart-extract/src/extractor.rs`) and of the `max_size` lookup
generated by the `MultipartForm` derive macro
(`src/actix-multipart-extract-derive/src/lib.rs`).

Modelling decisions:
* `serde_json::Value` becomes the inductive `Value`; a `serde_json::Map` becomes
  an association list (`JMap`) whose `mapInsert` replaces an existing key in
  place and appends a fresh key at the end.  No theorem below depends on the
  iteration order of map keys.
* A multipart part (`actix_multipart::Field`) is a `PartData`: the optional
  disposition name, the optional filename, the content type, and the finite
  list of its byte chunks, where `some bytes` models a chunk delivered `Ok`
  and `none` models a chunk-level transport error (`Err`).
* The part stream handed to `multipart_to_json` is a `List PartPull`:
  `PartPull.ok p` models `try_next` yielding `Ok(Some(p))`, and
  `PartPull.fail` models `try_next` yielding `Err(_)`; the list ending models
  `Ok(None)`.  The Rust `while let Ok(Some(..))` loop stops at either.
* Machine integers: chunk sizes are `Nat` (usize arithmetic here cannot
  overflow in any reachable state we reason about, since sizes only grow by
  list lengths); `str::parse::<isize>` is modelled by `parse_isize` over
  mathematical integers with an explicit signed 64-bit range check, which is
  equivalent to Rust's per-step checked accumulation in base 10 because the
  accumulator is monotone along the digit fold.
* `std::str::from_utf8` is modelled by `fromUtf8`, a standard UTF-8 decoder
  (continuation-byte checks, overlong forms, surrogates and the 0x10FFFF upper
  bound all rejected).
-/

namespace MPE

/-- The JSON-like value tree produced by the decoder (`serde_json::Value`). -/
inductive Value where
  | null
  | bool (b : Bool)
  | num (n : Int)
  | str (s : String)
  | arr (xs : List Value)
  | obj (fields : List (String × Value))

/-- A JSON object, as an insertion-ordered association list. -/
abbrev JMap := List (String × Value)

/-- Lookup in a `JMap` (`Map::get`). -/
def mapGet : JMap → String → Option Value
  | [], _ => none
  | (k, v) :: rest, key => if k = key then some v else mapGet rest key

/-- Insertion into a `JMap` (`Map::insert`): an existing key keeps its
position and has its value replaced; a fresh key is appended at the end. -/
def mapInsert : JMap → String → Value → JMap
  | [], key, v => [(key, v)]
  | (k, w) :: rest, key, v =>
    if k = key then (key, v) :: rest else (k, w) :: mapInsert rest key v

/-- Models Rust `str::replace("[]", "")` specialised to the fixed two-character
pattern: every non-overlapping occurrence of `[]`, scanned left to right, is
deleted (extractor.rs line 104). -/
def stripBrackets : List Char → List Char
  | [] => []
  | [c] => [c]
  | c1 :: c2 :: rest =>
    if c1 = '[' ∧ c2 = ']' then stripBrackets rest
    else c1 :: stripBrackets (c2 :: rest)

/-- `field_name.replace("[]", "")`, the `field_name_formatted` of the source. -/
def replaceBrackets (s : String) : String :=
  String.mk (stripBrackets s.data)

/-- Models `field_name.ends_with("[]")` (extractor.rs line 217). -/
def endsWithBrackets (s : String) : Bool :=
  match s.data.reverse with
  | c1 :: c2 :: _ => c1 == ']' && c2 == '['
  | _ => false

/-- `params_insert` from extractor.rs lines 211-228: array-suffixed wire names
append to (or create) a sequence stored under the formatted name; an existing
non-array entry is left untouched; non-array wire names set/overwrite the
entry stored under the wire name itself. -/
def params_insert (params : JMap) (field_name : String)
    (field_name_formatted : String) (element : Value) : JMap :=
  if endsWithBrackets field_name then
    match mapGet params field_name_formatted with
    | some (Value.arr xs) =>
        mapInsert params field_name_formatted (Value.arr (xs ++ [element]))
    | some _ => params
    | none => mapInsert params field_name_formatted (Value.arr [element])
  else
    mapInsert params field_name element

/-- Numeric value of a list of decimal digit characters, most significant
first (the digit fold inside integer parsing). -/
def digitsVal (ds : List Char) : Nat :=
  ds.foldl (fun a c => a * 10 + (c.toNat - 48)) 0

/-- Smallest value of Rust `isize` on a 64-bit target. -/
def isizeMin : Int := -9223372036854775808

/-- Largest value of Rust `isize` on a 64-bit target. -/
def isizeMax : Int := 9223372036854775807

/-- A non-empty all-digit run parsed to its value, else `none`. -/
def parseDigitsVal (ds : List Char) : Option Nat :=
  if ds.isEmpty then none
  else if ds.all Char.isDigit then some (digitsVal ds) else none

/-- Models `str::parse::<isize>()` (used at extractor.rs line 172): an optional
leading `+` or `-` sign, then one or more decimal digits, with the resulting
value required to fit in a signed 64-bit integer.  Rust checks overflow step
by step during the fold; for base 10 the accumulator is monotone, so checking
the final value against the `isize` bounds is equivalent. -/
def parse_isize (s : String) : Option Int :=
  match s.data with
  | [] => none
  | c :: cs =>
    if c = '-' then
      match parseDigitsVal cs with
      | some n => if isizeMin ≤ -(n : Int) then some (-(n : Int)) else none
      | none => none
    else if c = '+' then
      match parseDigitsVal cs with
      | some n => if (n : Int) ≤ isizeMax then some n else none
      | none => none
    else
      match parseDigitsVal (c :: cs) with
      | some n => if (n : Int) ≤ isizeMax then some n else none
      | none => none

/-- The scalar coercion of extractor.rs lines 170-199: integer first, then the
exact literals `true` / `false`, otherwise the text verbatim. -/
def coerce (s : String) : Value :=
  match parse_isize s with
  | some n => Value.num n
  | none =>
    if s = "true" then Value.bool true
    else if s = "false" then Value.bool false
    else Value.str s

/-- Models `std::str::from_utf8` failure/success on a byte list: decodes the
bytes as UTF-8 characters, rejecting stray continuation bytes, overlong
encodings, surrogate code points and values above `0x10FFFF`. -/
def fromUtf8Aux : List Nat → Option (List Char)
  | [] => some []
  | b :: bs =>
    if b < 0x80 then
      match fromUtf8Aux bs with
      | some cs => some (Char.ofNat b :: cs)
      | none => none
    else if b < 0xC2 then none
    else if b < 0xE0 then
      match bs with
      | b1 :: bs1 =>
        if 0x80 ≤ b1 ∧ b1 < 0xC0 then
          match fromUtf8Aux bs1 with
          | some cs => some (Char.ofNat ((b - 0xC0) * 0x40 + (b1 - 0x80)) :: cs)
          | none => none
        else none
      | [] => none
    else if b < 0xF0 then
      match bs with
      | b1 :: b2 :: bs2 =>
        if (0x80 ≤ b1 ∧ b1 < 0xC0) ∧ (0x80 ≤ b2 ∧ b2 < 0xC0) then
          if (b - 0xE0) * 0x1000 + (b1 - 0x80) * 0x40 + (b2 - 0x80) < 0x800 ∨
             (0xD800 ≤ (b - 0xE0) * 0x1000 + (b1 - 0x80) * 0x40 + (b2 - 0x80) ∧
              (b - 0xE0) * 0x1000 + (b1 - 0x80) * 0x40 + (b2 - 0x80) < 0xE000) then
            none
          else
            match fromUtf8Aux bs2 with
            | some cs =>
                some (Char.ofNat ((b - 0xE0) * 0x1000 + (b1 - 0x80) * 0x40 + (b2 - 0x80)) :: cs)
            | none => none
        else none
      | _ => none
    else if b < 0xF5 then
      match bs with
      | b1 :: b2 :: b3 :: bs3 =>
        if (0x80 ≤ b1 ∧ b1 < 0xC0) ∧ (0x80 ≤ b2 ∧ b2 < 0xC0) ∧ (0x80 ≤ b3 ∧ b3 < 0xC0) then
          if (b - 0xF0) * 0x40000 + (b1 - 0x80) * 0x1000 + (b2 - 0x80) * 0x40 + (b3 - 0x80)
               < 0x10000 ∨
             0x110000 ≤
               (b - 0xF0) * 0x40000 + (b1 - 0x80) * 0x1000 + (b2 - 0x80) * 0x40 + (b3 - 0x80) then
            none
          else
            match fromUtf8Aux bs3 with
            | some cs =>
                some (Char.ofNat
                  ((b - 0xF0) * 0x40000 + (b1 - 0x80) * 0x1000 + (b2 - 0x80) * 0x40 + (b3 - 0x80))
                  :: cs)
            | none => none
        else none
      | _ => none
    else none

/-- `std::str::from_utf8` as a string-producing decoder. -/
def fromUtf8 (bs : List Nat) : Option String :=
  (fromUtf8Aux bs).map (fun cs => String.mk cs)

/-- The decoder's error enum (`MultipartError`); the payload of `ParseError`
(a `serde_json::Error` raised downstream of the decode loop) is irrelevant to
the decode engine and dropped. -/
inductive MultipartError where
  | parseError
  | fileSizeError (field : String) (limit : Nat)

/-- One multipart part: disposition name, optional filename, content type, and
the finite chunk stream (`some bytes` = chunk delivered `Ok`, `none` = a
chunk-level transport error). -/
structure PartData where
  name : Option String
  filename : Option String
  contentType : String
  chunks : List (Option (List Nat))

/-- One pull of `multipart.try_next()`: a part, or a stream-level error. -/
inductive PartPull where
  | ok (p : PartData)
  | fail

/-- The file-path chunk loop of extractor.rs lines 118-141: accumulate `size`,
reject as soon as the declared limit is crossed, push the accepted chunk's
bytes as JSON numbers, and on a chunk error insert `Null` under the formatted
name and keep reading chunks (the Rust `continue` targets this inner loop). -/
def fileChunkLoop (maxSize : Option Nat) (field_name : String)
    (field_name_formatted : String) :
    List (Option (List Nat)) → Nat → List Value → JMap →
    Except MultipartError (List Value × JMap)
  | [], _, data, map => Except.ok (data, map)
  | none :: rest, size, data, map =>
    fileChunkLoop maxSize field_name field_name_formatted rest size data
      (mapInsert map field_name_formatted Value.null)
  | some bytes :: rest, size, data, map =>
    match maxSize with
    | some ms =>
      if size + bytes.length > ms then
        Except.error (MultipartError.fileSizeError field_name ms)
      else
        fileChunkLoop maxSize field_name field_name_formatted rest
          (size + bytes.length)
          (data ++ bytes.map (fun b => Value.num (Int.ofNat b))) map
    | none =>
      fileChunkLoop maxSize field_name field_name_formatted rest
        (size + bytes.length)
        (data ++ bytes.map (fun b => Value.num (Int.ofNat b))) map

/-- The body of the `while let Ok(Some(mut field))` loop of
`multipart_to_json` (extractor.rs lines 96-204) for one part: skip a nameless
part, skip a part whose *wire* name is not among the valid fields, route a
part carrying a filename through the file chunk loop and `params_insert` the
assembled `{content_type, name, bytes}` object, and otherwise read the first
chunk and coerce it as a scalar (no chunk, or an errored chunk, inserts
`Null`; an undecodable chunk inserts nothing). -/
def processPart (valid_fields : List String) (max_size : String → Option Nat)
    (map : JMap) (p : PartData) : Except MultipartError JMap :=
  match p.name with
  | none => Except.ok map
  | some field_name =>
    if valid_fields.contains field_name = true then
      match p.filename with
      | some fname =>
        match fileChunkLoop (max_size field_name) field_name
            (replaceBrackets field_name) p.chunks 0 [] map with
        | Except.error e => Except.error e
        | Except.ok (data, map1) =>
          Except.ok (params_insert map1 field_name (replaceBrackets field_name)
            (Value.obj
              (mapInsert
                (mapInsert
                  (mapInsert [] "content_type" (Value.str p.contentType))
                  "name" (Value.str fname))
                "bytes" (Value.arr data))))
      | none =>
        match p.chunks with
        | some bytes :: _ =>
          match fromUtf8 bytes with
          | some s =>
            Except.ok (params_insert map field_name
              (replaceBrackets field_name) (coerce s))
          | none => Except.ok map
        | _ =>
          Except.ok (params_insert map field_name
            (replaceBrackets field_name) Value.null)
    else
      Except.ok map

/-- `multipart_to_json` (extractor.rs lines 90-208): fold `processPart` over
the part stream, stopping with the accumulated tree when the stream ends or
errors at the part level, and propagating a file-size error immediately. -/
def multipart_to_json (valid_fields : List String)
    (max_size : String → Option Nat) :
    List PartPull → JMap → Except MultipartError JMap
  | [], map => Except.ok map
  | PartPull.fail :: _, map => Except.ok map
  | PartPull.ok p :: rest, map =>
    match processPart valid_fields max_size map p with
    | Except.error e => Except.error e
    | Except.ok map1 => multipart_to_json valid_fields max_size rest map1

/-- First index of `field` in a name list; models
`introspected.iter().position(|f| f == &field)` from the derive macro
(actix-multipart-extract-derive/src/lib.rs line 88). -/
def position : List String → String → Option Nat
  | [], _ => none
  | f :: rest, field =>
    if f = field then some 0 else (position rest field).map (fun i => i + 1)

/-- The `max_size` function generated by the `MultipartForm` derive macro
(actix-multipart-extract-derive/src/lib.rs lines 79-94): a static array of
per-field `Option<usize>` limits in declaration order, aligned positionally
with the serde-introspected (post-rename) field-name list; the named field is
resolved to its index and the limit at that index returned, `None` for an
unknown name. -/
def max_size (introspected : List String) (max_sizes : List (Option Nat))
    (field : String) : Option Nat :=
  match position introspected field with
  | some i => max_sizes.getD i none
  | none => none

/-- Total byte count of a list of chunks. -/
def sumLen (cs : List (List Nat)) : Nat :=
  (cs.map List.length).sum

/-- A `max_size` oracle declaring no limit for any field. -/
def noLimits : String → Option Nat := fun _ => none

/-- A `max_size` oracle declaring a 1-byte limit for field `f` only. -/
def limitF : String → Option Nat := fun s => if s = "f" then some 1 else none

/-- A `max_size` oracle declaring a 3-byte limit for field `f` only. -/
def limitF3 : String → Option Nat := fun s => if s = "f" then some 3 else none

/-! ### Helper lemmas -/

/-- The three inserts building the file object produce the literal
three-entry map. -/
theorem fieldMap_eq (v1 v2 v3 : Value) :
    mapInsert (mapInsert (mapInsert [] "content_type" v1) "name" v2) "bytes" v3 =
      [("content_type", v1), ("name", v2), ("bytes", v3)] := rfl

/-- When every chunk arrives `Ok` and the total stays within the declared
limit, the file chunk loop succeeds, appending exactly the concatenation of
the chunks (as JSON numbers) and leaving the tree untouched. -/
theorem fileChunkLoop_all_ok (ms : Nat) (fn ffn : String)
    (chunks : List (List Nat)) :
    ∀ (size : Nat) (data : List Value) (map : JMap),
      size + sumLen chunks ≤ ms →
      fileChunkLoop (some ms) fn ffn (chunks.map some) size data map =
        Except.ok (data ++ chunks.flatten.map (fun b => Value.num (Int.ofNat b)), map) := by
  induction chunks with
  | nil =>
    intro size data map h
    simp [fileChunkLoop]
  | cons c cs ih =>
    intro size data map h
    have hsum : size + c.length + sumLen cs ≤ ms := by
      simp [sumLen] at h ⊢; omega
    have hng : ¬ size + c.length > ms := by omega
    simp only [List.map_cons, fileChunkLoop, if_neg hng]
    rw [ih _ _ _ hsum]
    simp [sumLen, List.map_append]

/-- As soon as the accumulated size of `Ok` chunks crosses the declared
limit, the file chunk loop returns `FileSizeError` at once, whatever chunks
(including errored ones) would follow. -/
theorem fileChunkLoop_exceed (ms : Nat) (fn ffn : String)
    (chunks : List (List Nat)) :
    ∀ (tail : List (Option (List Nat))) (size : Nat) (data : List Value) (map : JMap),
      size ≤ ms → size + sumLen chunks > ms →
      fileChunkLoop (some ms) fn ffn (chunks.map some ++ tail) size data map =
        Except.error (MultipartError.fileSizeError fn ms) := by
  induction chunks with
  | nil =>
    intro tail size data map h1 h2
    exfalso
    simp [sumLen] at h2
    omega
  | cons c cs ih =>
    intro tail size data map h1 h2
    by_cases hgt : size + c.length > ms
    · simp [fileChunkLoop, hgt]
    · have hle : size + c.length ≤ ms := by omega
      have h2' : size + c.length + sumLen cs > ms := by
        simp [sumLen] at h2 ⊢; omega
      simp only [List.map_cons, List.cons_append, fileChunkLoop, if_neg hgt]
      exact ih tail _ _ map hle h2'

/-- Whenever the file chunk loop returns successfully, the buffered data never
grew past the declared limit (or past the starting size if that was already
larger). -/
theorem fileChunkLoop_buffer (ms : Nat) (fn ffn : String)
    (chunks : List (Option (List Nat))) :
    ∀ (size : Nat) (data : List Value) (map : JMap) (d : List Value) (m : JMap),
      data.length = size →
      fileChunkLoop (some ms) fn ffn chunks size data map = Except.ok (d, m) →
      d.length ≤ max ms size := by
  induction chunks with
  | nil =>
    intro size data map d m hlen h
    simp [fileChunkLoop] at h
    obtain ⟨h1, h2⟩ := h
    subst h1
    exact hlen ▸ Nat.le_max_right ms data.length
  | cons c cs ih =>
    intro size data map d m hlen h
    cases c with
    | none =>
      simp only [fileChunkLoop] at h
      exact ih _ _ _ _ _ hlen h
    | some bytes =>
      by_cases hgt : size + bytes.length > ms
      · simp [fileChunkLoop, hgt] at h
      · simp only [fileChunkLoop, if_neg hgt] at h
        have hb := ih (size + bytes.length)
          (data ++ bytes.map (fun b => Value.num (Int.ofNat b))) map d m
          (by simp [hlen]) h
        have hmax : max ms (size + bytes.length) = ms :=
          Nat.max_eq_left (by omega)
        calc d.length ≤ max ms (size + bytes.length) := hb
          _ = ms := hmax
          _ ≤ max ms size := Nat.le_max_left ms size

/-- A part-level transport error stops the decode loop with whatever was
accumulated up to that point, regardless of what would follow. -/
theorem multipart_to_json_append_fail (vf : List String)
    (maxS : String → Option Nat) (xs : List PartPull) :
    ∀ (rest : List PartPull) (m : JMap),
      multipart_to_json vf maxS (xs ++ PartPull.fail :: rest) m =
        multipart_to_json vf maxS xs m := by
  induction xs with
  | nil => intro rest m; rfl
  | cons x xs ih =>
    intro rest m
    cases x with
    | fail => rfl
    | ok p =>
      simp only [List.cons_append, multipart_to_json]
      cases processPart vf maxS m p with
      | error e => rfl
      | ok m1 => exact ih rest m1

/-- A non-empty all-digit run parses to its decimal value. -/
theorem parseDigitsVal_eq_some (ds : List Char) (h1 : ds ≠ [])
    (h2 : ds.all Char.isDigit = true) :
    parseDigitsVal ds = some (digitsVal ds) := by
  cases ds with
  | nil => exact absurd rfl h1
  | cons d ds' => simp [parseDigitsVal, h2]

/-- Looking a name up at the head of the schema returns the head limit. -/
theorem max_size_cons_self (n0 : String) (l0 : Option Nat)
    (names : List String) (sizes : List (Option Nat)) :
    max_size (n0 :: names) (l0 :: sizes) n0 = l0 := by
  simp [max_size, position]

/-- Looking up a name different from the head skips the head entry. -/
theorem max_size_cons_ne (n0 : String) (l0 : Option Nat)
    (names : List String) (sizes : List (Option Nat)) (name : String)
    (h : ¬ n0 = name) :
    max_size (n0 :: names) (l0 :: sizes) name = max_size names sizes name := by
  simp only [max_size, position, if_neg h]
  cases hp : position names name with
  | none => simp
  | some i => simp

/-- A name absent from the list has no position. -/
theorem position_eq_none (names : List String) (name : String)
    (h : name ∉ names) : position names name = none := by
  induction names with
  | nil => rfl
  | cons f fs ih =>
    have hne : ¬ f = name := fun he => h (he ▸ List.mem_cons_self f fs)
    simp only [position, if_neg hne,
      ih (fun hm => h (List.mem_cons_of_mem f hm)), Option.map_none']

/-- With pairwise-distinct (post-rename) names, the generated lookup returns
the limit declared for the named field. -/
theorem max_size_lookup_of_mem :
    ∀ (fields : List (String × Option Nat)), (fields.map Prod.fst).Nodup →
      ∀ (name : String) (limit : Option Nat), (name, limit) ∈ fields →
        max_size (fields.map Prod.fst) (fields.map Prod.snd) name = limit
  | [], _, name, limit, h => by simp at h
  | (n0, l0) :: fs, hnd, name, limit, h => by
    rcases List.mem_cons.mp h with heq | htl
    · have h1 : name = n0 := congrArg Prod.fst heq
      have h2 : limit = l0 := congrArg Prod.snd heq
      subst h1
      subst h2
      simp only [List.map_cons]
      exact max_size_cons_self name limit (fs.map Prod.fst) (fs.map Prod.snd)
    · have hnd' := List.nodup_cons.mp
        (show (n0 :: fs.map Prod.fst).Nodup from hnd)
      have hmem : name ∈ fs.map Prod.fst :=
        List.mem_map_of_mem Prod.fst htl
      have hne : ¬ n0 = name := fun he => hnd'.1 (he ▸ hmem)
      simp only [List.map_cons]
      rw [max_size_cons_ne _ _ _ _ _ hne]
      exact max_size_lookup_of_mem fs hnd'.2 name limit htl

/-! ### Claim theorems -/

/-- Claim C2 (code bug, evaluation at the failing input): the valid-field
check at extractor.rs line 107 tests the *wire* field name against the known
field-name list, not the canonical name.  With the known-name list
`["tags[]"]`, a part named `tags[]` — whose canonical name `tags` is *not* in
the list, so the claim requires it to be dropped — passes the check and is
recorded under `tags` in the output tree. -/
theorem c2_wire_name_checked_not_canonical :
    multipart_to_json ["tags[]"] noLimits
      [PartPull.ok ⟨some "tags[]", none, "text/plain", [some [97]]⟩] [] =
      Except.ok [("tags", Value.arr [Value.str "a"])] ∧
    (["tags[]"] : List String).contains "tags" = false :=
  ⟨rfl, rfl⟩

/-- Claim C3 (code bug, evaluation at the failing input): with a record type
whose field list is `["tags"]`, wire parts named `tags[]` carrying `a`, `b`,
`c` are all dropped by the valid-field check at extractor.rs line 107 (which
compares the unstripped wire name `tags[]` against the list), so the decoded
tree is empty instead of mapping `tags` to `[a, b, c]`.  The second conjunct
shows that `params_insert` by itself would have merged the three values in
arrival order exactly as the claim states. -/
theorem c3_array_parts_dropped :
    multipart_to_json ["tags"] noLimits
      [PartPull.ok ⟨some "tags[]", none, "t", [some [97]]⟩,
       PartPull.ok ⟨some "tags[]", none, "t", [some [98]]⟩,
       PartPull.ok ⟨some "tags[]", none, "t", [some [99]]⟩] [] =
      Except.ok [] ∧
    params_insert (params_insert (params_insert [] "tags[]" "tags" (Value.str "a"))
        "tags[]" "tags" (Value.str "b")) "tags[]" "tags" (Value.str "c") =
      [("tags", Value.arr [Value.str "a", Value.str "b", Value.str "c"])] :=
  ⟨rfl, rfl⟩

/-- Claim C5 (code bug, evaluation at the failing input): on a chunk-level
transport error the code inserts `Null` for the field, but the `continue`
targets the inner chunk loop (extractor.rs line 138), so reading resumes with
the next chunk and the file object assembled from the successfully received
chunks later overwrites the `Null`.  For a file part with chunks
`[Ok [1,2], Err, Ok [3]]` the final entry is the file object with bytes
`[1,2,3]`, not `Null`, and the second conjunct exhibits the transient `Null`
that the chunk loop had inserted before it was overwritten. -/
theorem c5_chunk_error_overwritten :
    multipart_to_json ["f"] noLimits
      [PartPull.ok ⟨some "f", some "x.bin", "application/o",
        [some [1, 2], none, some [3]]⟩] [] =
      Except.ok [("f", Value.obj [("content_type", Value.str "application/o"),
        ("name", Value.str "x.bin"),
        ("bytes", Value.arr [Value.num 1, Value.num 2, Value.num 3])])] ∧
    fileChunkLoop none "f" "f" [some [1, 2], none, some [3]] 0 [] [] =
      Except.ok ([Value.num 1, Value.num 2, Value.num 3], [("f", Value.null)]) :=
  ⟨rfl, rfl⟩

/-- Claim C8: for every record type with a derived schema (a list of
post-rename field names paired with optional byte limits, the generated
lookup being positional over the two aligned lists) and every field name,
`max_size` returns exactly the limit declared for that name — `none` both
when no limit was declared and when the name is unknown — and never fails. -/
theorem c8_max_size_lookup (fields : List (String × Option Nat))
    (hnd : (fields.map Prod.fst).Nodup) :
    (∀ (name : String) (limit : Option Nat), (name, limit) ∈ fields →
       max_size (fields.map Prod.fst) (fields.map Prod.snd) name = limit) ∧
    (∀ name : String, name ∉ fields.map Prod.fst →
       max_size (fields.map Prod.fst) (fields.map Prod.snd) name = none) := by
  constructor
  · exact fun name limit h => max_size_lookup_of_mem fields hnd name limit h
  · intro name h
    simp [max_size, position_eq_none _ _ h]

/-- Witness for C8 at a concrete schema: field `avatar` declared with a
1 MiB limit, field `name` with none; lookups of `avatar` and of an unknown
name. -/
theorem c8_max_size_witness :
    max_size ["avatar", "name"] [some 1048576, none] "avatar" = some 1048576 ∧
    max_size ["avatar", "name"] [some 1048576, none] "missing" = none := by
  have h := c8_max_size_lookup [("avatar", some 1048576), ("name", none)] (by decide)
  exact ⟨h.1 "avatar" (some 1048576) (by decide), h.2 "missing" (by decide)⟩

/-- Claim C9: the decode loop ends successfully with the accumulated tree
both when the part stream ends normally and when pulling the next part fails
with a transport error; in the error case the result is exactly what the
decode of the already-consumed prefix would have produced. -/
theorem c9_stream_end_lenient (vf : List String) (maxS : String → Option Nat) :
    (∀ m : JMap, multipart_to_json vf maxS [] m = Except.ok m) ∧
    (∀ (rest : List PartPull) (m : JMap),
       multipart_to_json vf maxS (PartPull.fail :: rest) m = Except.ok m) ∧
    (∀ (xs rest : List PartPull) (m : JMap),
       multipart_to_json vf maxS (xs ++ PartPull.fail :: rest) m =
         multipart_to_json vf maxS xs m) :=
  ⟨fun _ => rfl, fun _ _ => rfl,
   fun xs rest m => multipart_to_json_append_fail vf maxS xs rest m⟩

/-- Claim C10: a part whose content disposition carries no field name is
silently skipped — it contributes nothing to the tree, raises no error, and
decoding continues with the remaining parts. -/
theorem c10_nameless_part_skipped (vf : List String)
    (maxS : String → Option Nat) (rest : List PartPull) (m : JMap)
    (p : PartData) (hn : p.name = none) :
    multipart_to_json vf maxS (PartPull.ok p :: rest) m =
      multipart_to_json vf maxS rest m := by
  simp only [multipart_to_json, processPart, hn]

/-- Witness for C10 at a concrete nameless part. -/
theorem c10_nameless_witness :
    multipart_to_json ["x"] noLimits [PartPull.ok ⟨none, none, "", []⟩] [] =
      Except.ok [] :=
  (c10_nameless_part_skipped ["x"] noLimits [] [] ⟨none, none, "", []⟩ rfl).trans rfl

/-- Claim C1: for a file part of a known field `f` whose declared limit is
`ms` and whose chunks all arrive `Ok`: (1) when the total byte count stays
within `ms`, the decode inserts the file object whose `bytes` entry is the
exact in-order concatenation of the chunks and continues with the remaining
parts; (2) when the total exceeds `ms`, the whole decode returns
`FileSizeError{f, ms}` immediately, whatever parts would follow; (3) once
any prefix of the chunks exceeds `ms`, the chunk loop yields that error no
matter what chunks would follow, so no further chunk is consumed; (4) the
data buffered by the chunk loop never exceeds `ms` bytes at any prefix of
the chunk stream. -/
theorem c1_file_size_guard (vf : List String) (maxS : String → Option Nat)
    (m : JMap) (rest : List PartPull) (p : PartData) (f fname : String)
    (ms : Nat) (chunks : List (List Nat))
    (hn : p.name = some f) (hf : p.filename = some fname)
    (hv : vf.contains f = true) (hm : maxS f = some ms)
    (hc : p.chunks = chunks.map some) :
    (sumLen chunks ≤ ms →
       multipart_to_json vf maxS (PartPull.ok p :: rest) m =
         multipart_to_json vf maxS rest
           (params_insert m f (replaceBrackets f)
             (Value.obj [("content_type", Value.str p.contentType),
               ("name", Value.str fname),
               ("bytes", Value.arr (chunks.flatten.map (fun b => Value.num (Int.ofNat b))))]))) ∧
    (sumLen chunks > ms →
       multipart_to_json vf maxS (PartPull.ok p :: rest) m =
         Except.error (MultipartError.fileSizeError f ms)) ∧
    (∀ k, sumLen (chunks.take k) > ms →
       ∀ tail, fileChunkLoop (some ms) f (replaceBrackets f)
           ((chunks.take k).map some ++ tail) 0 [] m =
         Except.error (MultipartError.fileSizeError f ms)) ∧
    (∀ (k : Nat) (d : List Value) (m1 : JMap),
       fileChunkLoop (some ms) f (replaceBrackets f) ((chunks.take k).map some) 0 [] m =
         Except.ok (d, m1) → d.length ≤ ms) := by
  refine ⟨?_, ?_, ?_, ?_⟩
  · intro hle
    simp only [multipart_to_json, processPart, hn, hf, hv, hm, hc, if_true,
      eq_self_iff_true]
    rw [fileChunkLoop_all_ok ms f (replaceBrackets f) chunks 0 [] m (by omega)]
    simp [fieldMap_eq]
  · intro hgt
    simp only [multipart_to_json, processPart, hn, hf, hv, hm, hc, if_true,
      eq_self_iff_true]
    have he := fileChunkLoop_exceed ms f (replaceBrackets f) chunks [] 0 [] m
      (Nat.zero_le ms) (by omega)
    rw [List.append_nil] at he
    rw [he]
  · intro k hk tail
    exact fileChunkLoop_exceed ms f (replaceBrackets f) (chunks.take k) tail 0 [] m
      (Nat.zero_le ms) (by omega)
  · intro k d m1 h
    have hb := fileChunkLoop_buffer ms f (replaceBrackets f)
      ((chunks.take k).map some) 0 [] m d m1 rfl h
    rwa [Nat.max_eq_left (Nat.zero_le ms)] at hb

/-- Witness for C1: a 2-byte upload under a 3-byte limit decodes to the file
object; a 4-byte upload over the same limit fails with
`FileSizeError{f, 3}` even though another part follows. -/
theorem c1_size_guard_witness :
    multipart_to_json ["f"] limitF3
      [PartPull.ok ⟨some "f", some "a.bin", "ct", [some [1, 2]]⟩] [] =
      Except.ok [("f", Value.obj [("content_type", Value.str "ct"),
        ("name", Value.str "a.bin"),
        ("bytes", Value.arr [Value.num 1, Value.num 2])])] ∧
    multipart_to_json ["f"] limitF3
      [PartPull.ok ⟨some "f", some "a.bin", "ct", [some [1, 2], some [3, 4]]⟩,
       PartPull.ok ⟨some "g", none, "t", [some [97]]⟩] [] =
      Except.error (MultipartError.fileSizeError "f" 3) := by
  constructor
  · exact ((c1_file_size_guard ["f"] limitF3 [] []
      ⟨some "f", some "a.bin", "ct", [some [1, 2]]⟩ "f" "a.bin" 3 [[1, 2]]
      rfl rfl rfl rfl rfl).1 (by decide)).trans rfl
  · exact (c1_file_size_guard ["f"] limitF3 []
      [PartPull.ok ⟨some "g", none, "t", [some [97]]⟩]
      ⟨some "f", some "a.bin", "ct", [some [1, 2], some [3, 4]]⟩ "f" "a.bin" 3
      [[1, 2], [3, 4]] rfl rfl rfl rfl rfl).2.1 (by decide)

/-- Counterexample to claim C4 as stated: the claim says a leading `+` is not
accepted by the integer parse (so `"+42"` should coerce to the string
`"+42"`), and admits any base-10 signed integer (so 2^63 should coerce to an
Integer); Rust's `str::parse::<isize>` accepts an optional leading `+` and is
bounded by the signed 64-bit range, so `"+42"` coerces to `Integer 42` and
`"9223372036854775808"` falls through to a String. -/
theorem c4_counterexample :
    coerce "+42" = Value.num 42 ∧
    coerce "9223372036854775808" = Value.str "9223372036854775808" ∧
    Value.num 42 ≠ Value.str "+42" := by
  refine ⟨rfl, rfl, ?_⟩
  intro h
  exact Value.noConfusion h

/-- Claim C4 (amended): scalar coercion tries, in order with first match
winning, a base-10 signed integer with an optional leading `+` or `-` whose
value fits the signed 64-bit range (yielding Integer), then the exact
literals `true` / `false` (yielding Boolean), otherwise the String of the
text verbatim (including the empty string); a part yielding no value at all
maps to Null. -/
theorem c4_scalar_coercion_order :
    (∀ (s : String) (n : Int), parse_isize s = some n → coerce s = Value.num n) ∧
    (∀ s : String, parse_isize s = none → coerce s =
       (if s = "true" then Value.bool true
        else if s = "false" then Value.bool false else Value.str s)) ∧
    (∀ ds : List Char, ds ≠ [] → ds.all Char.isDigit = true →
       (digitsVal ds : Int) ≤ isizeMax →
       parse_isize (String.mk ds) = some ((digitsVal ds : Int)) ∧
       parse_isize (String.mk ('+' :: ds)) = some ((digitsVal ds : Int))) ∧
    (∀ ds : List Char, ds ≠ [] → ds.all Char.isDigit = true →
       isizeMin ≤ -(digitsVal ds : Int) →
       parse_isize (String.mk ('-' :: ds)) = some (-(digitsVal ds : Int))) ∧
    (coerce "42" = Value.num 42 ∧ coerce "true" = Value.bool true ∧
     coerce "false" = Value.bool false ∧ coerce "" = Value.str "" ∧
     coerce "abc" = Value.str "abc") ∧
    (∀ (vf : List String) (maxS : String → Option Nat) (m : JMap)
       (rest : List PartPull) (p : PartData) (f : String),
       p.name = some f → p.filename = none → vf.contains f = true →
       p.chunks = [] →
       multipart_to_json vf maxS (PartPull.ok p :: rest) m =
         multipart_to_json vf maxS rest
           (params_insert m f (replaceBrackets f) Value.null)) := by
  refine ⟨?_, ?_, ?_, ?_, ⟨rfl, rfl, rfl, rfl, rfl⟩, ?_⟩
  · intro s n h
    simp [coerce, h]
  · intro s h
    simp [coerce, h]
  · intro ds h1 h2 h3
    constructor
    · cases ds with
      | nil => exact absurd rfl h1
      | cons d ds' =>
        have hd : d.isDigit = true := by
          simp [List.all_cons] at h2
          exact h2.1
        have hne1 : ¬ d = '-' := by
          intro he
          rw [he] at hd
          exact absurd hd (by decide)
        have hne2 : ¬ d = '+' := by
          intro he
          rw [he] at hd
          exact absurd hd (by decide)
        simp [parse_isize, hne1, hne2,
          parseDigitsVal_eq_some (d :: ds') h1 h2, h3]
    · simp [parse_isize, parseDigitsVal_eq_some ds h1 h2, h3]
  · intro ds h1 h2 h3
    simp [parse_isize, parseDigitsVal_eq_some ds h1 h2, h3]
  · intro vf maxS m rest p f hn hfile hv hchunks
    simp only [multipart_to_json, processPart, hn, hfile, hv, hchunks,
      if_true, eq_self_iff_true]

/-- Witness for C4: the digit run `42` parses bare, with a leading `+`, and
with a leading `-`. -/
theorem c4_coercion_witness :
    parse_isize (String.mk ['4', '2']) = some 42 ∧
    parse_isize (String.mk ['+', '4', '2']) = some 42 ∧
    parse_isize (String.mk ['-', '4', '2']) = some (-42) := by
  have h := c4_scalar_coercion_order.2.2.1 ['4', '2'] (by decide) (by decide)
    (by decide)
  have h2 := c4_scalar_coercion_order.2.2.2.1 ['4', '2'] (by decide) (by decide)
    (by decide)
  exact ⟨h.1.trans (by decide), h.2.trans (by decide), h2.trans (by decide)⟩

/-- Counterexample to claim C6 as stated: a scalar part of known field `a`
whose single chunk `[0xFF]` is not valid UTF-8 produces an *empty* output
tree — the field is not recorded at all, whereas the claim says it is
recorded as Null (which would have been the distinct tree
`[("a", Value.null)]`). -/
theorem c6_counterexample :
    multipart_to_json ["a"] noLimits
      [PartPull.ok ⟨some "a", none, "text/plain", [some [255]]⟩] [] =
      Except.ok [] ∧
    mapGet [] "a" = none ∧
    (Except.ok ([] : JMap) : Except MultipartError JMap) ≠
      Except.ok [("a", Value.null)] := by
  refine ⟨rfl, rfl, ?_⟩
  simp

/-- Claim C6 (amended): for a scalar part of a known field whose first chunk
arrives `Ok` but is not valid UTF-8, the engine records nothing for that
occurrence — the tree is left unchanged, no error is raised, and decoding
continues with the remaining parts. -/
theorem c6_invalid_utf8_no_entry (vf : List String) (maxS : String → Option Nat)
    (m : JMap) (rest : List PartPull) (p : PartData) (f : String)
    (bytes : List Nat) (tl : List (Option (List Nat)))
    (hn : p.name = some f) (hfile : p.filename = none)
    (hv : vf.contains f = true) (hc : p.chunks = some bytes :: tl)
    (hu : fromUtf8 bytes = none) :
    multipart_to_json vf maxS (PartPull.ok p :: rest) m =
      multipart_to_json vf maxS rest m := by
  simp only [multipart_to_json, processPart, hn, hfile, hv, hc, hu, if_true,
    eq_self_iff_true]

/-- Witness for C6 at the concrete invalid byte `0xFF`. -/
theorem c6_invalid_utf8_witness :
    multipart_to_json ["a"] noLimits
      [PartPull.ok ⟨some "a", none, "text/plain", [some [255]]⟩] [] =
      Except.ok [] :=
  (c6_invalid_utf8_no_entry ["a"] noLimits [] []
    ⟨some "a", none, "text/plain", [some [255]]⟩ "a" [255] []
    rfl rfl rfl rfl rfl).trans rfl

/-- Counterexample to claim C7 as stated: (1) the canonical name is computed
with `replace("[]", "")`, which removes *every* occurrence, not only one
trailing occurrence — a part named `a[]b[]` lands under key `ab`, not under
`a[]b` as the claim requires; (2) the max-size schema lookup uses the raw
wire name, not the canonical name — a 2-byte file part named `f[]` whose
canonical name `f` has a declared 1-byte limit decodes successfully instead
of failing with a size error. -/
theorem c7_counterexample :
    multipart_to_json ["a[]b[]"] noLimits
      [PartPull.ok ⟨some "a[]b[]", none, "t", [some [118]]⟩] [] =
      Except.ok [("ab", Value.arr [Value.str "v"])] ∧
    mapGet [("ab", Value.arr [Value.str "v"])] "a[]b" = none ∧
    multipart_to_json ["f[]"] limitF
      [PartPull.ok ⟨some "f[]", some "x", "ct", [some [7, 8]]⟩] [] =
      Except.ok [("f", Value.arr [Value.obj [("content_type", Value.str "ct"),
        ("name", Value.str "x"),
        ("bytes", Value.arr [Value.num 7, Value.num 8])]])] :=
  ⟨rfl, rfl, rfl⟩

/-- Claim C7 (amended): the array-membership test holds exactly when the
wire name ends with `[]`; the canonical name used as the value-tree key is
the wire name with every non-overlapping occurrence of `[]` removed, left to
right (for names containing no other `[` this agrees with stripping a
trailing `[]`); the known-field and max-size schema lookups use the raw wire
name, so they depend only on it and not on the canonical form. -/
theorem c7_array_marker :
    (∀ s : String, endsWithBrackets s = true ↔ ∃ t, s.data = t ++ ['[', ']']) ∧
    (∀ cs : List Char, (∀ c ∈ cs, c ≠ '[') →
       stripBrackets (cs ++ ['[', ']']) = cs) ∧
    (replaceBrackets "a[]b[]" = "ab" ∧ replaceBrackets "[]x" = "x" ∧
     replaceBrackets "tags[]" = "tags") ∧
    (∀ (vf : List String) (maxS1 maxS2 : String → Option Nat) (m : JMap)
       (p : PartData) (f : String), p.name = some f → maxS1 f = maxS2 f →
       processPart vf maxS1 m p = processPart vf maxS2 m p) := by
  refine ⟨?_, ?_, ⟨rfl, rfl, rfl⟩, ?_⟩
  · intro s
    unfold endsWithBrackets
    constructor
    · intro h
      cases hr : s.data.reverse with
      | nil => rw [hr] at h; simp at h
      | cons c1 r1 =>
        cases r1 with
        | nil => rw [hr] at h; simp at h
        | cons c2 r2 =>
          rw [hr] at h
          simp at h
          obtain ⟨rfl, rfl⟩ := h
          refine ⟨r2.reverse, ?_⟩
          have hs : s.data = (']' :: '[' :: r2).reverse := by
            rw [← hr, List.reverse_reverse]
          rw [hs]
          simp
    · rintro ⟨t, ht⟩
      rw [ht]
      simp [List.reverse_append]
  · intro cs
    induction cs with
    | nil => intro h; rfl
    | cons c cs' ih =>
      intro h
      have hc : c ≠ '[' := h c (List.mem_cons_self c cs')
      have h' : ∀ x ∈ cs', x ≠ '[' := fun x hx => h x (List.mem_cons_of_mem c hx)
      cases cs' with
      | nil =>
        show stripBrackets [c, '[', ']'] = [c]
        have hcc : ¬ (c = '[' ∧ '[' = ']') := fun hcc => hc hcc.1
        simp [stripBrackets, hcc]
      | cons c2 cs'' =>
        show stripBrackets (c :: c2 :: (cs'' ++ ['[', ']'])) = c :: c2 :: cs''
        have hcc : ¬ (c = '[' ∧ c2 = ']') := fun hcc => hc hcc.1
        rw [show stripBrackets (c :: c2 :: (cs'' ++ ['[', ']'])) =
          c :: stripBrackets (c2 :: (cs'' ++ ['[', ']'])) from by
            simp only [stripBrackets, if_neg hcc]]
        have hih := ih h'
        rw [show c2 :: (cs'' ++ ['[', ']']) = (c2 :: cs'') ++ ['[', ']'] from rfl]
        rw [hih]
  · intro vf maxS1 maxS2 m p f hn hag
    simp only [processPart, hn, hag]

/-- Witness for C7 at a plain name `t`: its array form `t[]` strips back to
`t`. -/
theorem c7_amended_witness :
    stripBrackets (['t'] ++ ['[', ']']) = ['t'] :=
  c7_array_marker.2.1 ['t'] (by decide)

end MPE
